import Mathlib

/-!
Verification development for the AguiMessageRegistry streaming
message-reconstruction engine (AguiMessageRegistry.tsx).

Strings scanned by the chunk extractor are modelled as lists of
characters; JavaScript Map and Set (which preserve insertion order,
where setting an existing key replaces in place and adding an existing
set element is a no-op) are modelled as association lists with
in-place replacement and append-if-absent. Timestamps (createdAt,
compared in the source via new Date(s).getTime()) are modelled as the
resulting integer. Subscriber callbacks are modelled as opaque
subscriber identifiers; a call of every subscriber with a message is
modelled as the list of emitted (subscriber, message) notifications.
-/

namespace Agui

/-- Association list lookup: first entry with the given key (JS Map.get). -/
def lookupAssoc {α β : Type} [DecidableEq α] (l : List (α × β)) (k : α) : Option β :=
  match l with
  | [] => none
  | (k', v) :: rest => if k' = k then some v else lookupAssoc rest k

/-- Association list update (JS Map.set): replace the first entry with the
given key in place, or append a new entry at the end. -/
def setAssoc {α β : Type} [DecidableEq α] (l : List (α × β)) (k : α) (v : β) : List (α × β) :=
  match l with
  | [] => [(k, v)]
  | (k', v') :: rest => if k' = k then (k, v) :: rest else (k', v') :: setAssoc rest k v

/-- JS Set.add on an insertion-ordered set of elements: append if absent. -/
def addToSet {α : Type} [DecidableEq α] (l : List α) (x : α) : List α :=
  if x ∈ l then l else l ++ [x]

theorem lookupAssoc_setAssoc_self {α β : Type} [DecidableEq α]
    (l : List (α × β)) (k : α) (v : β) : lookupAssoc (setAssoc l k v) k = some v := by
  induction l with
  | nil => simp [setAssoc, lookupAssoc]
  | cons hd tl ih =>
    obtain ⟨k', v'⟩ := hd
    by_cases h : k' = k
    · simp [setAssoc, h, lookupAssoc]
    · simp [setAssoc, h, lookupAssoc, ih]

theorem lookupAssoc_setAssoc_ne {α β : Type} [DecidableEq α]
    (l : List (α × β)) (k k' : α) (v : β) (h : k' ≠ k) :
    lookupAssoc (setAssoc l k v) k' = lookupAssoc l k' := by
  have h' : ¬ k = k' := fun hh => h hh.symm
  induction l with
  | nil => simp [setAssoc, lookupAssoc, h']
  | cons hd tl ih =>
    obtain ⟨ka, va⟩ := hd
    by_cases hk : ka = k
    · subst hk
      simp [setAssoc, lookupAssoc, h']
    · simp [setAssoc, hk, lookupAssoc, ih]

/-! ## Chunk Payload Extractor (extractJsonPayloads) -/

/-- ChunkParserState from the source: the accumulation buffer, brace depth,
in-string flag and escape flag carried across extractor calls. -/
structure ChunkParserState where
  buffer : List Char
  depth : Nat
  inString : Bool
  escaping : Bool
  deriving Repr, DecidableEq

/-- The initial parser state created by getParserState for a new stream. -/
def initParserState : ChunkParserState :=
  { buffer := [], depth := 0, inString := false, escaping := false }

/-- One iteration of the character loop of extractJsonPayloads: consume one
character, returning the updated state and the payloads emitted (at most
one) by this character. -/
def extractStep (st : ChunkParserState) (c : Char) :
    ChunkParserState × List (List Char) :=
  if st.depth = 0 then
    if c = '{' then ({ st with buffer := ['{'], depth := 1 }, [])
    else (st, [])
  else
    let st1 := { st with buffer := st.buffer ++ [c] }
    if st1.escaping then ({ st1 with escaping := false }, [])
    else if c = '\\' then ({ st1 with escaping := true }, [])
    else if c = '"' then ({ st1 with inString := !st1.inString }, [])
    else if st1.inString then (st1, [])
    else if c = '{' then ({ st1 with depth := st1.depth + 1 }, [])
    else if c = '}' then
      if st1.depth - 1 = 0 then
        ({ st1 with depth := 0, buffer := [] }, [st1.buffer])
      else ({ st1 with depth := st1.depth - 1 }, [])
    else (st1, [])

/-- extractJsonPayloads from the source: scan a chunk character by
character, emitting each syntactically complete top-level JSON object and
threading the parser state. -/
def extractJsonPayloads (chunk : List Char) (st : ChunkParserState) :
    List (List Char) × ChunkParserState :=
  match chunk with
  | [] => ([], st)
  | c :: rest =>
    let (st1, out) := extractStep st c
    let (outs, st2) := extractJsonPayloads rest st1
    (out ++ outs, st2)

/-- Feeding a sequence of chunks to the extractor across separate calls,
carrying the parser state between calls, and concatenating the emissions
(the per-chunk loop of processChunk over newChunks). -/
def runExtractor (chunks : List (List Char)) (st : ChunkParserState) :
    List (List Char) × ChunkParserState :=
  match chunks with
  | [] => ([], st)
  | ch :: rest =>
    let (out, st1) := extractJsonPayloads ch st
    let (outs, st2) := runExtractor rest st1
    (out ++ outs, st2)

theorem extractJsonPayloads_append (l1 l2 : List Char) (st : ChunkParserState) :
    extractJsonPayloads (l1 ++ l2) st =
      ((extractJsonPayloads l1 st).1 ++
        (extractJsonPayloads l2 (extractJsonPayloads l1 st).2).1,
       (extractJsonPayloads l2 (extractJsonPayloads l1 st).2).2) := by
  induction l1 generalizing st with
  | nil => simp [extractJsonPayloads]
  | cons c rest ih =>
    simp only [List.cons_append, extractJsonPayloads, List.append_eq]
    rw [ih]
    simp

/-- Claim C2: chunk-boundary invariance of the Extractor. Feeding any
sequence of chunks to the extractor across separate calls, carrying the
parser state between calls, emits exactly the same payloads and reaches
exactly the same final state as feeding their concatenation in one call;
in particular, for a complete JSON object split into any partition, the
same single object is emitted. -/
theorem extractor_chunk_boundary_invariance
    (chunks : List (List Char)) (st : ChunkParserState) :
    runExtractor chunks st = extractJsonPayloads chunks.flatten st := by
  induction chunks generalizing st with
  | nil => simp [runExtractor, extractJsonPayloads]
  | cons ch rest ih =>
    simp only [runExtractor, List.flatten_cons, extractJsonPayloads_append]
    rw [ih]

/-! ## A grammar of complete top-level JSON objects (from the spec)

Modelled from the spec: a complete top-level JSON object is a brace-
balanced character sequence in which string literals may contain literal
braces and escaped characters (including escaped quotes), and backslashes
occur only inside string literals (as in well-formed JSON). This is the
spec-side definition used to state string-safety of the extractor. -/

/-- Body of a JSON string literal: a sequence of characters where a quote
or backslash may occur only as the second character of an escape pair. -/
inductive JStrBody : List Char → Prop
  | nil : JStrBody []
  | plain {c : Char} {l : List Char} : c ≠ '"' → c ≠ '\\' →
      JStrBody l → JStrBody (c :: l)
  | esc {c : Char} {l : List Char} : JStrBody l → JStrBody ('\\' :: c :: l)

/-- Grammar roles: a single item, a sequence of items, or a braced object. -/
inductive JTok where
  | item : JTok
  | body : JTok
  | obj : JTok

/-- Grammar of complete top-level JSON objects, brace-balanced with string
literals handled: an obj is a brace-wrapped body, a body a sequence of
items, an item a non-special character, a quoted string literal, or a
nested object. -/
inductive JGram : JTok → List Char → Prop
  | bnil : JGram .body []
  | bcons {x xs : List Char} : JGram .item x → JGram .body xs →
      JGram .body (x ++ xs)
  | iplain {c : Char} : c ≠ '{' → c ≠ '}' → c ≠ '"' → c ≠ '\\' →
      JGram .item [c]
  | istr {l : List Char} : JStrBody l → JGram .item ('"' :: l ++ ['"'])
  | iobj {l : List Char} : JGram .obj l → JGram .item l
  | omk {l : List Char} : JGram .body l → JGram .obj ('{' :: l ++ ['}'])

theorem scan_strBody {l : List Char} (h : JStrBody l) (b : List Char) (d : Nat) :
    extractJsonPayloads l { buffer := b, depth := d + 1, inString := true, escaping := false } =
      ([], { buffer := b ++ l, depth := d + 1, inString := true, escaping := false }) := by
  induction h generalizing b with
  | nil => simp [extractJsonPayloads]
  | plain hq hb _ ih =>
    rename_i c l'
    simp only [extractJsonPayloads, extractStep]
    simp only [Nat.succ_ne_zero, if_neg, if_false, hq, hb, if_true]
    simp [ih]
  | esc _ ih =>
    rename_i c l'
    simp only [extractJsonPayloads, extractStep]
    norm_num
    simp [extractJsonPayloads, extractStep, ih]

theorem scan_inObject {t : JTok} {l : List Char} (h : JGram t l) :
    ∀ (b : List Char) (d : Nat),
    extractJsonPayloads l { buffer := b, depth := d + 1, inString := false, escaping := false } =
      ([], { buffer := b ++ l, depth := d + 1, inString := false, escaping := false }) := by
  induction h with
  | bnil => intro b d; simp [extractJsonPayloads]
  | bcons _ _ ih1 ih2 =>
    intro b d
    rw [extractJsonPayloads_append, ih1 b d]
    simp [ih2]
  | iplain h1 h2 h3 h4 =>
    intro b d
    simp [extractJsonPayloads, extractStep, h1, h2, h3, h4]
  | istr hs =>
    intro b d
    rename_i l'
    have hopen : extractStep
        { buffer := b, depth := d + 1, inString := false, escaping := false } '"' =
        ({ buffer := b ++ ['"'], depth := d + 1, inString := true, escaping := false }, []) := by
      simp [extractStep]
    simp only [List.cons_append, extractJsonPayloads, hopen, List.append_eq]
    rw [extractJsonPayloads_append, scan_strBody hs]
    simp [extractJsonPayloads, extractStep, List.append_assoc]
  | iobj _ ih =>
    intro b d
    exact ih b d
  | omk _ ih =>
    intro b d
    rename_i l'
    have hopen : extractStep
        { buffer := b, depth := d + 1, inString := false, escaping := false } '{' =
        ({ buffer := b ++ ['{'], depth := d + 2, inString := false, escaping := false }, []) := by
      simp [extractStep]
    simp only [List.cons_append, extractJsonPayloads, hopen, List.append_eq]
    rw [extractJsonPayloads_append, ih (b ++ ['{']) (d + 1)]
    simp [extractJsonPayloads, extractStep, List.append_assoc]

/-- Claim C5: string-safety of the Extractor. Every complete top-level
JSON object in the grammar (whose string literals may contain literal
braces and escaped quotes) is emitted by the extractor, from the initial
parser state, as exactly one object equal to the whole input, returning
the parser to the initial state. -/
theorem extractor_string_safety {S : List Char} (h : JGram .obj S) :
    extractJsonPayloads S initParserState = ([S], initParserState) := by
  cases h with
  | omk hb =>
    rename_i l
    have hopen : extractStep initParserState '{' =
        ({ buffer := ['{'], depth := 1, inString := false, escaping := false }, []) := by
      simp [extractStep, initParserState]
    simp only [List.cons_append, extractJsonPayloads, hopen, List.append_eq]
    rw [extractJsonPayloads_append, scan_inObject hb ['{'] 0]
    simp [extractJsonPayloads, extractStep, initParserState]

/-- Witness for C5 at the concrete object with value string containing a
literal open brace, a literal close brace and an escaped quote. -/
theorem extractor_string_safety_witness :
    JGram .obj ['{', '"', '{', '}', '\\', '"', '"', '}'] ∧
    extractJsonPayloads ['{', '"', '{', '}', '\\', '"', '"', '}'] initParserState =
      ([['{', '"', '{', '}', '\\', '"', '"', '}']], initParserState) := by
  have hs : JStrBody ['{', '}', '\\', '"'] :=
    JStrBody.plain (by decide) (by decide)
      (JStrBody.plain (by decide) (by decide) (JStrBody.esc JStrBody.nil))
  have hg : JGram .obj ['{', '"', '{', '}', '\\', '"', '"', '}'] :=
    JGram.omk (JGram.bcons (JGram.istr hs) JGram.bnil)
  exact ⟨hg, extractor_string_safety hg⟩

/-! ## Message data model and Message Store -/

/-- AGUIMessage from the source: the reconstructed protocol entity. The
field typename models the __typename discriminant; createdAt is modelled
as the integer timestamp the source obtains via new Date(s).getTime();
the two streamed string-array fields may contain holes (JS undefined
slots), modelled as none; extra models the remaining open fields. -/
structure AGUIMessage where
  typename : String
  id : String
  createdAt : Int
  name : Option String
  arguments : Option (List (Option String))
  content : Option (List (Option String))
  extra : List (String × String)
  deriving Repr, DecidableEq

/-- JS truthiness of message.name: present and non-empty. -/
def nameTruthy (m : AGUIMessage) : Bool :=
  match m.name with
  | some n => !(n == "")
  | none => false

/-- The module-level mutable registries of the source: the message store,
the by-typename index, the latest-by-action-name index, and the
subscriber set, each insertion-ordered. -/
structure RegistryState where
  messageStore : List (String × AGUIMessage)
  messagesByType : List (String × List String)
  actionExecutionMessages : List (String × AGUIMessage)
  subscribers : List Nat
  deriving Repr, DecidableEq

/-- The registry before any message is stored or subscriber added. -/
def emptyRegistry : RegistryState :=
  { messageStore := [], messagesByType := [], actionExecutionMessages := [],
    subscribers := [] }

/-- subscribeToAguiMessages: add a callback to the subscriber set. -/
def subscribeToAguiMessages (sid : Nat) (reg : RegistryState) : RegistryState :=
  { reg with subscribers := addToSet reg.subscribers sid }

/-- resetAguiMessageRegistry: clear the message store and both secondary
indexes. The subscriber set is not touched by the source. -/
def resetAguiMessageRegistry (reg : RegistryState) : RegistryState :=
  { messageStore := [], messagesByType := [], actionExecutionMessages := [],
    subscribers := reg.subscribers }

/-- getAguiMessage: look a message up by id. -/
def getAguiMessage (reg : RegistryState) (id : String) : Option AGUIMessage :=
  lookupAssoc reg.messageStore id

/-- getAguiMessagesByType: the ids recorded for a typename, resolved
through the store, dropping ids whose record is missing. -/
def getAguiMessagesByType (reg : RegistryState) (typename : String) : List AGUIMessage :=
  match lookupAssoc reg.messagesByType typename with
  | none => []
  | some ids => ids.filterMap (fun i => lookupAssoc reg.messageStore i)

/-- getLatestActionExecution: the latest-by-action-name index lookup. -/
def getLatestActionExecution (reg : RegistryState) (actionName : String) :
    Option AGUIMessage :=
  lookupAssoc reg.actionExecutionMessages actionName

/-- storeMessage from the source: insert-or-replace by id, add the id to
the typename index, update the latest-by-action-name index when the
message is an ActionExecutionMessageOutput with a truthy name, and notify
every subscriber with the message. -/
def storeMessage (m : AGUIMessage) (reg : RegistryState) :
    RegistryState × List (Nat × AGUIMessage) :=
  let store1 := setAssoc reg.messageStore m.id m
  let byType1 :=
    match lookupAssoc reg.messagesByType m.typename with
    | some ids => setAssoc reg.messagesByType m.typename (addToSet ids m.id)
    | none => setAssoc reg.messagesByType m.typename [m.id]
  let actions1 :=
    match m.name with
    | some n =>
      if m.typename = "ActionExecutionMessageOutput" ∧ n ≠ "" then
        setAssoc reg.actionExecutionMessages n m
      else reg.actionExecutionMessages
    | none => reg.actionExecutionMessages
  ({ messageStore := store1, messagesByType := byType1,
     actionExecutionMessages := actions1, subscribers := reg.subscribers },
   reg.subscribers.map (fun s => (s, m)))

/-! ## Action Recency Policy (shouldRenderAction) -/

/-- Insert a message into a list sorted ascending by createdAt, after all
entries whose createdAt is less than or equal (stability). -/
def insertByCreatedAt (x : AGUIMessage) : List AGUIMessage → List AGUIMessage
  | [] => [x]
  | y :: ys => if y.createdAt ≤ x.createdAt then y :: insertByCreatedAt x ys
               else x :: y :: ys

/-- Stable ascending sort by createdAt, modelling the stable
Array.prototype.sort of the source with the numeric timestamp comparator. -/
def sortByCreatedAt (l : List AGUIMessage) : List AGUIMessage :=
  l.foldl (fun acc x => insertByCreatedAt x acc) []

/-- shouldRenderAction from the source: true for every non-action message;
for an action message, collect the stored same-typename messages with the
same name, sort ascending by createdAt, and render only when the given
message's id equals the last (latest) element's id. -/
def shouldRenderAction (reg : RegistryState) (actionMessage : AGUIMessage) : Bool :=
  if actionMessage.typename ≠ "ActionExecutionMessageOutput" then true
  else
    let sameNameActions := sortByCreatedAt
      ((reg.messageStore.map Prod.snd).filter
        (fun m => m.typename == "ActionExecutionMessageOutput" &&
                  m.name == actionMessage.name))
    match sameNameActions.getLast? with
    | some latestAction => actionMessage.id == latestAction.id
    | none => false

/-- Ids recorded for a typename in the by-type index. -/
def typeIdsOf (reg : RegistryState) (t : String) : List String :=
  (lookupAssoc reg.messagesByType t).getD []

theorem mem_addToSet {α : Type} [DecidableEq α] {l : List α} {x i : α}
    (h : i ∈ l) : i ∈ addToSet l x := by
  unfold addToSet
  split
  · exact h
  · exact List.mem_append_left _ h

theorem mem_addToSet_self {α : Type} [DecidableEq α] (l : List α) (x : α) :
    x ∈ addToSet l x := by
  unfold addToSet
  split
  · assumption
  · exact List.mem_append_right _ (List.mem_singleton.mpr rfl)

theorem nodup_addToSet {α : Type} [DecidableEq α] {l : List α} (x : α)
    (h : l.Nodup) : (addToSet l x).Nodup := by
  unfold addToSet
  split
  · exact h
  · rename_i hx
    simp [List.nodup_append, h, hx]

theorem count_map_pair {l : List Nat} {sid : Nat} {m : AGUIMessage}
    (hnd : l.Nodup) (hmem : sid ∈ l) :
    (l.map (fun s => (s, m))).count (sid, m) = 1 := by
  induction l with
  | nil => cases hmem
  | cons a l ih =>
    obtain ⟨hal, hln⟩ := List.nodup_cons.mp hnd
    rcases List.mem_cons.mp hmem with h | h
    · subst h
      have hz : (l.map (fun s => (s, m))).count (sid, m) = 0 := by
        rw [List.count_eq_zero]
        intro hc
        obtain ⟨s, hs, he⟩ := List.mem_map.mp hc
        have : s = sid := congrArg Prod.fst he
        exact hal (this ▸ hs)
      simp [List.count_cons, hz]
    · have hne : sid ≠ a := by
        rintro rfl
        exact hal h
      rw [List.map_cons, List.count_cons, ih hln h]
      simp [Prod.ext_iff, Ne.symm hne]

/-- Claim C4: the Action Recency Policy. A message whose kind is not the
invocable-action kind is always authoritative; for action messages, among
all stored messages with the same action name sorted stably ascending by
createdAt, a message is authoritative iff its id is the id of the last
element: of three stored same-named action messages with strictly
increasing createdAt and distinct ids, exactly the greatest-createdAt one
is authoritative. -/
theorem recency_policy :
    (∀ (reg : RegistryState) (m : AGUIMessage),
        m.typename ≠ "ActionExecutionMessageOutput" →
        shouldRenderAction reg m = true)
    ∧ (∀ (reg : RegistryState) (m1 m2 m3 : AGUIMessage) (nm : Option String),
        reg.messageStore = [(m1.id, m1), (m2.id, m2), (m3.id, m3)] →
        m1.typename = "ActionExecutionMessageOutput" →
        m2.typename = "ActionExecutionMessageOutput" →
        m3.typename = "ActionExecutionMessageOutput" →
        m1.name = nm → m2.name = nm → m3.name = nm →
        m1.createdAt < m2.createdAt → m2.createdAt < m3.createdAt →
        m1.id ≠ m3.id → m2.id ≠ m3.id →
        shouldRenderAction reg m3 = true ∧
        shouldRenderAction reg m1 = false ∧
        shouldRenderAction reg m2 = false) := by
  constructor
  · intro reg m h
    simp [shouldRenderAction, h]
  · intro reg m1 m2 m3 nm hst h1t h2t h3t h1n h2n h3n h12 h23 hne13 hne23
    have h13 := lt_trans h12 h23
    have key : ∀ m : AGUIMessage,
        m.typename = "ActionExecutionMessageOutput" → m.name = nm →
        shouldRenderAction reg m = (m.id == m3.id) := by
      intro m hmt hmn
      simp [shouldRenderAction, hmt, hst, h1t, h2t, h3t, h1n, h2n, h3n, hmn,
        sortByCreatedAt, insertByCreatedAt,
        le_of_lt h12, le_of_lt h23, le_of_lt h13]
    refine ⟨?_, ?_, ?_⟩
    · rw [key m3 h3t h3n]
      simp
    · rw [key m1 h1t h1n]
      simp [hne13]
    · rw [key m2 h2t h2n]
      simp [hne23]

/-- A same-named action message used in concrete scenarios. -/
def msgAct (i : String) (t : Int) : AGUIMessage :=
  { typename := "ActionExecutionMessageOutput", id := i, createdAt := t,
    name := some "search", arguments := none, content := none, extra := [] }

/-- A registry holding exactly three same-named action messages. -/
def regThree : RegistryState :=
  { messageStore :=
      [("a", msgAct "a" 1), ("b", msgAct "b" 2), ("c", msgAct "c" 3)],
    messagesByType := [], actionExecutionMessages := [], subscribers := [] }

/-- Witness for C4 on three concrete same-named action messages. -/
theorem recency_policy_witness :
    shouldRenderAction regThree (msgAct "c" 3) = true ∧
    shouldRenderAction regThree (msgAct "a" 1) = false ∧
    shouldRenderAction regThree (msgAct "b" 2) = false :=
  recency_policy.2 regThree (msgAct "a" 1) (msgAct "b" 2) (msgAct "c" 3)
    (some "search") rfl rfl rfl rfl rfl rfl rfl (by decide) (by decide)
    (by decide) (by decide)

/-- Action message with the greater createdAt, stored first. -/
def mEarlyStoredLate : AGUIMessage :=
  { typename := "ActionExecutionMessageOutput", id := "b", createdAt := 1,
    name := some "s", arguments := none, content := none, extra := [] }

/-- Action message with the smaller createdAt, stored second. -/
def mLateStoredEarly : AGUIMessage :=
  { typename := "ActionExecutionMessageOutput", id := "a", createdAt := 2,
    name := some "s", arguments := none, content := none, extra := [] }

/-- Registry after storing the greater-createdAt action first and the
smaller-createdAt one second. -/
def regC8 : RegistryState :=
  (storeMessage mEarlyStoredLate (storeMessage mLateStoredEarly emptyRegistry).1).1

/-- Claim C8: the latest-by-action-name index records the action message
most recently passed to storeMessage with that name, independent of
createdAt; storing a greater-createdAt action before a smaller-createdAt
one with the same name makes getLatestActionExecution return a message on
which shouldRenderAction is false. -/
theorem latest_action_vs_recency :
    (∀ (reg : RegistryState) (m : AGUIMessage) (n : String),
        m.typename = "ActionExecutionMessageOutput" → m.name = some n →
        n ≠ "" →
        getLatestActionExecution (storeMessage m reg).1 n = some m)
    ∧ (getLatestActionExecution regC8 "s" = some mEarlyStoredLate ∧
       shouldRenderAction regC8 mEarlyStoredLate = false) := by
  constructor
  · intro reg m n hmt hmn hne
    simp [getLatestActionExecution, storeMessage, hmt, hmn, hne,
      lookupAssoc_setAssoc_self]
  · constructor
    · decide
    · decide

/-- Witness for C8: the index lookup after one concrete store. -/
theorem latest_action_vs_recency_witness :
    getLatestActionExecution (storeMessage mLateStoredEarly emptyRegistry).1 "s" =
      some mLateStoredEarly :=
  latest_action_vs_recency.1 emptyRegistry mLateStoredEarly "s" rfl rfl
    (by decide)

/-- Message first stored under typename T1 with id x. -/
def mTypeOne : AGUIMessage :=
  { typename := "T1", id := "x", createdAt := 0, name := none,
    arguments := none, content := none, extra := [] }

/-- Wholesale replacement with the same id but typename T2. -/
def mTypeTwo : AGUIMessage :=
  { typename := "T2", id := "x", createdAt := 0, name := none,
    arguments := none, content := none, extra := [] }

/-- Registry after storing the T1 message and then its T2 replacement. -/
def regC9 : RegistryState :=
  (storeMessage mTypeTwo (storeMessage mTypeOne emptyRegistry).1).1

/-- Claim C9: the by-type index is add-only under storeMessage (an id once
recorded for a typename is never removed), so after wholesale replacement
of an id under a different typename, the old typename still resolves to
the now-retyped record. -/
theorem type_index_add_only :
    (∀ (reg : RegistryState) (m : AGUIMessage) (t i : String),
        i ∈ typeIdsOf reg t → i ∈ typeIdsOf (storeMessage m reg).1 t)
    ∧ getAguiMessagesByType regC9 "T1" = [mTypeTwo] := by
  constructor
  · intro reg m t i hi
    unfold typeIdsOf at hi ⊢
    unfold storeMessage
    by_cases ht : t = m.typename
    · subst ht
      cases hcase : lookupAssoc reg.messagesByType m.typename with
      | none => rw [hcase] at hi; simp at hi
      | some ids =>
        rw [hcase] at hi
        simp only [hcase, lookupAssoc_setAssoc_self, Option.getD_some]
        exact mem_addToSet hi
    · have hne : t ≠ m.typename := ht
      cases hcase : lookupAssoc reg.messagesByType m.typename with
      | none =>
        simp only [hcase, lookupAssoc_setAssoc_ne _ _ _ _ hne]
        exact hi
      | some ids =>
        simp only [hcase, lookupAssoc_setAssoc_ne _ _ _ _ hne]
        exact hi
  · decide

/-- Witness for C9: the id x recorded for T1 survives the T2 replacement. -/
theorem type_index_add_only_witness :
    "x" ∈ typeIdsOf regC9 "T1" :=
  type_index_add_only.1 (storeMessage mTypeOne emptyRegistry).1 mTypeTwo
    "T1" "x" (by decide)

/-- Claim C10: resetAguiMessageRegistry clears the message store and both
secondary indexes but leaves the subscriber set unchanged, so a callback
subscribed before the reset is still notified exactly once, with the
stored message, by the next storeMessage after the reset. -/
theorem reset_keeps_subscribers :
    ∀ (reg : RegistryState) (sid : Nat) (m : AGUIMessage),
      reg.subscribers.Nodup →
      (resetAguiMessageRegistry (subscribeToAguiMessages sid reg)).subscribers =
        (subscribeToAguiMessages sid reg).subscribers ∧
      (resetAguiMessageRegistry (subscribeToAguiMessages sid reg)).messageStore = [] ∧
      (resetAguiMessageRegistry (subscribeToAguiMessages sid reg)).messagesByType = [] ∧
      (resetAguiMessageRegistry (subscribeToAguiMessages sid reg)).actionExecutionMessages = [] ∧
      ((storeMessage m (resetAguiMessageRegistry (subscribeToAguiMessages sid reg))).2).count
        (sid, m) = 1 := by
  intro reg sid m hnd
  refine ⟨rfl, rfl, rfl, rfl, ?_⟩
  have hsubs :
      (storeMessage m (resetAguiMessageRegistry (subscribeToAguiMessages sid reg))).2 =
        (addToSet reg.subscribers sid).map (fun s => (s, m)) := rfl
  rw [hsubs]
  exact count_map_pair (nodup_addToSet sid hnd) (mem_addToSet_self _ _)

/-- Witness for C10 on the empty registry. -/
theorem reset_keeps_subscribers_witness :
    ((storeMessage mTypeOne
        (resetAguiMessageRegistry (subscribeToAguiMessages 0 emptyRegistry))).2).count
      (0, mTypeOne) = 1 :=
  (reset_keeps_subscribers emptyRegistry 0 mTypeOne List.nodup_nil).2.2.2.2

/-! ## Payload Interpreter -/

/-- A path segment of an incremental patch: a string key or an array
index (path entries of other JS types never match the numeric or string
checks of the source and are not needed). -/
inductive PathSeg where
  | str (s : String) : PathSeg
  | num (n : Nat) : PathSeg
  deriving Repr, DecidableEq

/-- An element of an items array or of a snapshot messages array: a
message-shaped object, a plain string, or anything else. -/
inductive Item where
  | msg (m : AGUIMessage) : Item
  | str (s : String) : Item
  | other : Item
  deriving Repr, DecidableEq

/-- isMessageObject from the source: an object with string __typename and
string id fields. -/
def isMessageObject : Item → Bool
  | .msg _ => true
  | _ => false

/-- The data object of an incremental patch entry: each present field
overrides the corresponding message field on merge (JS object spread);
extra holds the remaining open keys. -/
structure IncData where
  id : Option String
  typename : Option String
  createdAt : Option Int
  name : Option String
  arguments : Option (List (Option String))
  content : Option (List (Option String))
  extra : List (String × String)
  deriving Repr, DecidableEq

/-- The merged message built by handleIncrementalData: spread current,
spread the patch data over it, then force id and __typename back to the
current record's values. -/
def mergeData (current : AGUIMessage) (d : IncData) : AGUIMessage :=
  { typename := current.typename,
    id := current.id,
    createdAt := d.createdAt.getD current.createdAt,
    name := match d.name with | some n => some n | none => current.name,
    arguments := match d.arguments with | some a => some a | none => current.arguments,
    content := match d.content with | some c => some c | none => current.content,
    extra := d.extra.foldl (fun acc kv => setAssoc acc kv.1 kv.2) current.extra }

/-- An entry of the incremental array: path (none models a non-array
path), items (none models absent or non-array) and data (none models a
falsy data value). -/
structure Incremental where
  path : Option (List PathSeg)
  items : Option (List Item)
  data : Option IncData
  deriving Repr, DecidableEq

/-- The response wrapper of a snapshot payload. -/
structure Response where
  messages : Option (List Item)
  deriving Repr, DecidableEq

/-- The data part of a payload: the generateCopilotResponse wrapper. -/
structure DataPayload where
  generateCopilotResponse : Option Response
  deriving Repr, DecidableEq

/-- A complete parsed payload object. -/
structure Payload where
  data : Option DataPayload
  incremental : Option (List (Option Incremental))
  deriving Repr, DecidableEq

/-- findIndex(segment equals the literal messages) over a path. -/
def findMessagesIdx : List PathSeg → Option Nat
  | [] => none
  | s :: rest =>
    if s = PathSeg.str "messages" then some 0
    else (findMessagesIdx rest).map (· + 1)

/-- getMessageIndexFromPath: the numeric segment right after the messages
segment, none when the path is not an array or has no such segment. -/
def getMessageIndexFromPath (path : Option (List PathSeg)) : Option Nat :=
  match path with
  | none => none
  | some p =>
    match findMessagesIdx p with
    | none => none
    | some i =>
      match p[i + 1]? with
      | some (PathSeg.num n) => some n
      | _ => none

/-- getFieldFromPath: the string segment two after the messages segment. -/
def getFieldFromPath (p : List PathSeg) : Option String :=
  match findMessagesIdx p with
  | none => none
  | some i =>
    match p[i + 2]? with
    | some (PathSeg.str f) => some f
    | _ => none

/-- getArrayIndexFromPath: the numeric segment three after the messages
segment. -/
def getArrayIndexFromPath (p : List PathSeg) : Option Nat :=
  match findMessagesIdx p with
  | none => none
  | some i =>
    match p[i + 3]? with
    | some (PathSeg.num n) => some n
    | _ => none

/-- Per-stream interpreter state: the shared registry plus the stream's
IndexTracker mapping array positions to message ids. -/
structure ProcState where
  reg : RegistryState
  tracker : List (Nat × String)
  deriving Repr, DecidableEq

/-- Interpreter state with an empty registry and empty tracker. -/
def emptyProcState : ProcState :=
  { reg := emptyRegistry, tracker := [] }

/-- updateArrayField from the source: copy the existing array (empty when
absent) and write the value at the index, growing the array with holes
when the index is past the end. -/
def updateArrayField (existing : Option (List (Option String)))
    (index : Nat) (value : String) : List (Option String) :=
  let next := existing.getD []
  if index < next.length then next.set index (some value)
  else next ++ List.replicate (index - next.length) none ++ [some value]

/-- applyArrayFieldUpdate from the source: resolve the message index,
field name and array index from the path, accept only the two streamed
string-array fields, resolve the owning message through the tracker and
the store, and store the message back with the array element written.
The falsy-field check of the source is subsumed by the whitelist (the
empty string is not one of the two field names). -/
def applyArrayFieldUpdate (path : Option (List PathSeg)) (item : String)
    (s : ProcState) : ProcState × List (Nat × AGUIMessage) :=
  match path with
  | none => (s, [])
  | some p =>
    match getMessageIndexFromPath (some p) with
    | none => (s, [])
    | some messageIdx =>
      match getFieldFromPath p, getArrayIndexFromPath p with
      | some field, some arrayIdx =>
        if field = "arguments" ∨ field = "content" then
          match lookupAssoc s.tracker messageIdx with
          | none => (s, [])
          | some messageId =>
            if messageId = "" then (s, [])
            else
              match lookupAssoc s.reg.messageStore messageId with
              | none => (s, [])
              | some current =>
                let updated :=
                  if field = "arguments" then
                    { current with arguments := some (updateArrayField current.arguments arrayIdx item) }
                  else
                    { current with content := some (updateArrayField current.content arrayIdx item) }
                let res := storeMessage updated s.reg
                ({ reg := res.1, tracker := s.tracker }, res.2)
        else (s, [])
      | _, _ => (s, [])

/-- handleIncrementalData from the source, for an entry whose data is
truthy: resolve the message index from the path, the id from the tracker
(dropping the patch when the index is unresolved) and the record from the
store, then store the merged record. -/
def handleIncrementalData (path : Option (List PathSeg)) (d : IncData)
    (s : ProcState) : ProcState × List (Nat × AGUIMessage) :=
  match getMessageIndexFromPath path with
  | none => (s, [])
  | some messageIdx =>
    match lookupAssoc s.tracker messageIdx with
    | none => (s, [])
    | some messageId =>
      if messageId = "" then (s, [])
      else
        match lookupAssoc s.reg.messageStore messageId with
        | none => (s, [])
        | some current =>
          let res := storeMessage (mergeData current d) s.reg
          ({ reg := res.1, tracker := s.tracker }, res.2)

/-- handleIncrementalItems from the source: store each message-shaped
item and record its index-to-id mapping; route each string item to the
array-field update; skip everything else. -/
def handleIncrementalItems (path : Option (List PathSeg)) (items : List Item)
    (s : ProcState) : ProcState × List (Nat × AGUIMessage) :=
  match items with
  | [] => (s, [])
  | item :: rest =>
    match item with
    | .msg m =>
      let res := storeMessage m s.reg
      let tracker1 :=
        match getMessageIndexFromPath path with
        | some k => setAssoc s.tracker k m.id
        | none => s.tracker
      let next := handleIncrementalItems path rest { reg := res.1, tracker := tracker1 }
      (next.1, res.2 ++ next.2)
    | .str v =>
      let res := applyArrayFieldUpdate path v s
      let next := handleIncrementalItems path rest res.1
      (next.1, res.2 ++ next.2)
    | .other => handleIncrementalItems path rest s

/-- processIncrementalPayload from the source: for each non-null entry,
handle its items array when present, then its data when truthy. -/
def processIncrementalPayload (incs : List (Option Incremental))
    (s : ProcState) : ProcState × List (Nat × AGUIMessage) :=
  match incs with
  | [] => (s, [])
  | none :: rest => processIncrementalPayload rest s
  | some inc :: rest =>
    let step1 :=
      match inc.items with
      | some its => handleIncrementalItems inc.path its s
      | none => (s, [])
    let step2 :=
      match inc.data with
      | some d => handleIncrementalData inc.path d step1.1
      | none => (step1.1, [])
    let next := processIncrementalPayload rest step2.1
    (next.1, step1.2 ++ step2.2 ++ next.2)

/-- The forEach over the snapshot messages array inside
processDataPayload: store every element that is message-shaped with
truthy __typename and id. -/
def processMessages (msgs : List Item) (reg : RegistryState) :
    RegistryState × List (Nat × AGUIMessage) :=
  match msgs with
  | [] => (reg, [])
  | item :: rest =>
    match item with
    | .msg m =>
      if m.typename ≠ "" ∧ m.id ≠ "" then
        let res := storeMessage m reg
        let next := processMessages rest res.1
        (next.1, res.2 ++ next.2)
      else processMessages rest reg
    | _ => processMessages rest reg

/-- processDataPayload from the source: unwrap generateCopilotResponse
and store the snapshot messages. The tracker is not an input: the
snapshot path of the source does not touch the IndexTracker. -/
def processDataPayload (data : DataPayload) (reg : RegistryState) :
    RegistryState × List (Nat × AGUIMessage) :=
  match data.generateCopilotResponse with
  | none => (reg, [])
  | some response =>
    match response.messages with
    | none => (reg, [])
    | some msgs => processMessages msgs reg

/-- processPayload from the source: apply the snapshot shape first when
present, then the incremental entries, in order. -/
def processPayload (payload : Payload) (s : ProcState) :
    ProcState × List (Nat × AGUIMessage) :=
  let step1 :=
    match payload.data with
    | some dp =>
      let res := processDataPayload dp s.reg
      (({ reg := res.1, tracker := s.tracker } : ProcState), res.2)
    | none => (s, [])
  let step2 :=
    match payload.incremental with
    | some incs => processIncrementalPayload incs step1.1
    | none => (step1.1, [])
  (step2.1, step1.2 ++ step2.2)

/-! ## Claims about the interpreter -/

theorem processMessages_lookup_preserved {items : List Item} {i : String}
    (h : ∀ m' : AGUIMessage, Item.msg m' ∈ items → m'.id ≠ i) :
    ∀ reg : RegistryState,
      lookupAssoc (processMessages items reg).1.messageStore i =
        lookupAssoc reg.messageStore i := by
  induction items with
  | nil => intro reg; rfl
  | cons it rest ih =>
    intro reg
    have hrest : ∀ m' : AGUIMessage, Item.msg m' ∈ rest → m'.id ≠ i :=
      fun m' hm => h m' (List.mem_cons_of_mem _ hm)
    cases it with
    | msg m =>
      by_cases hq : m.typename ≠ "" ∧ m.id ≠ ""
      · simp only [processMessages, if_pos hq]
        rw [ih hrest]
        have hm : (storeMessage m reg).1.messageStore =
            setAssoc reg.messageStore m.id m := rfl
        rw [hm]
        exact lookupAssoc_setAssoc_ne _ _ _ _
          (Ne.symm (h m (List.mem_cons_self _ _)))
      · simp only [processMessages, if_neg hq]
        exact ih hrest reg
    | str v =>
      simp only [processMessages]
      exact ih hrest reg
    | other =>
      simp only [processMessages]
      exact ih hrest reg

theorem processMessages_stores_last {m : AGUIMessage} {post : List Item}
    (hq1 : m.typename ≠ "") (hq2 : m.id ≠ "")
    (hpost : ∀ m' : AGUIMessage, Item.msg m' ∈ post → m'.id ≠ m.id) :
    ∀ (pre : List Item) (reg : RegistryState),
      lookupAssoc (processMessages (pre ++ Item.msg m :: post) reg).1.messageStore m.id =
        some m := by
  intro pre
  induction pre with
  | nil =>
    intro reg
    simp only [List.nil_append, processMessages, if_pos (And.intro hq1 hq2)]
    rw [processMessages_lookup_preserved hpost]
    have hm : (storeMessage m reg).1.messageStore =
        setAssoc reg.messageStore m.id m := rfl
    rw [hm]
    exact lookupAssoc_setAssoc_self _ _ _
  | cons it rest ih =>
    intro reg
    cases it with
    | msg m0 =>
      by_cases hq : m0.typename ≠ "" ∧ m0.id ≠ ""
      · simp only [List.cons_append, processMessages, if_pos hq]
        exact ih _
      · simp only [List.cons_append, processMessages, if_neg hq]
        exact ih _
    | str v =>
      simp only [List.cons_append, processMessages]
      exact ih _
    | other =>
      simp only [List.cons_append, processMessages]
      exact ih _

/-- Claim C1 (amended): every element of a snapshot payload's messages
array with truthy id and kind is inserted or replaced wholesale in the
Message Store (the last same-id element winning), but the snapshot path
leaves the stream's IndexTracker unchanged: position-to-id mappings are
established only by incremental items entries, never by snapshots. -/
theorem snapshot_stores_without_tracker :
    (∀ (payload : Payload) (s : ProcState), payload.incremental = none →
        (processPayload payload s).1.tracker = s.tracker)
    ∧ (∀ (dp : DataPayload) (reg : RegistryState) (resp : Response)
        (pre post : List Item) (m : AGUIMessage),
        dp.generateCopilotResponse = some resp →
        resp.messages = some (pre ++ Item.msg m :: post) →
        m.typename ≠ "" → m.id ≠ "" →
        (∀ m' : AGUIMessage, Item.msg m' ∈ post → m'.id ≠ m.id) →
        lookupAssoc (processDataPayload dp reg).1.messageStore m.id = some m) := by
  constructor
  · intro p s h
    simp only [processPayload, h]
    cases hd : p.data with
    | none => rfl
    | some dp => rfl
  · intro dp reg resp pre post m h1 h2 hq1 hq2 hpost
    simp only [processDataPayload, h1, h2]
    exact processMessages_stores_last hq1 hq2 hpost pre reg

/-- One snapshot message used in the C1 scenario. -/
def mSnapOne : AGUIMessage :=
  { typename := "TextMessageOutput", id := "m1", createdAt := 0, name := none,
    arguments := none, content := none, extra := [] }

/-- The response wrapper carrying the single snapshot message. -/
def respOne : Response := { messages := some [Item.msg mSnapOne] }

/-- The data part carrying the single snapshot message. -/
def dpOne : DataPayload := { generateCopilotResponse := some respOne }

/-- A payload whose only content is the one-message snapshot. -/
def snapPayloadOne : Payload := { data := some dpOne, incremental := none }

/-- Counterexample to claim C1 as stated: processing a snapshot payload
with one message at array position 0 stores the message, yet the
IndexTracker is not updated to map position 0 to its id (the tracker is
left empty). -/
theorem snapshot_tracker_counterexample :
    lookupAssoc (processPayload snapPayloadOne emptyProcState).1.reg.messageStore "m1" =
      some mSnapOne ∧
    (processPayload snapPayloadOne emptyProcState).1.tracker = [] ∧
    lookupAssoc (processPayload snapPayloadOne emptyProcState).1.tracker 0 = none := by
  decide

/-- Witness for the amended C1 on the concrete one-message snapshot. -/
theorem snapshot_stores_without_tracker_witness :
    lookupAssoc (processDataPayload dpOne emptyRegistry).1.messageStore "m1" =
      some mSnapOne :=
  snapshot_stores_without_tracker.2 dpOne emptyRegistry respOne [] [] mSnapOne
    rfl rfl (by decide) (by decide) (by intro m' hm; cases hm)

/-- Claim C3: an incremental data patch whose path resolves to an array
index with no tracker mapping is dropped whole: the state is unchanged
and no notification fires (the embedding is total, so nothing throws);
once the tracker maps the index to a stored id, the same patch applies
the merge through storeMessage. -/
theorem incremental_data_drop_and_replay :
    ∀ (path : Option (List PathSeg)) (d : IncData) (s : ProcState) (k : Nat),
      getMessageIndexFromPath path = some k →
      ((lookupAssoc s.tracker k = none →
          handleIncrementalData path d s = (s, []))
      ∧ (∀ (mid : String) (current : AGUIMessage),
          lookupAssoc s.tracker k = some mid → mid ≠ "" →
          lookupAssoc s.reg.messageStore mid = some current →
          handleIncrementalData path d s =
            (({ reg := (storeMessage (mergeData current d) s.reg).1,
                tracker := s.tracker } : ProcState),
             (storeMessage (mergeData current d) s.reg).2))) := by
  intro path d s k hk
  constructor
  · intro hnone
    simp [handleIncrementalData, hk, hnone]
  · intro mid current hmid hne hcur
    simp [handleIncrementalData, hk, hmid, hne, hcur]

/-- A path addressing array position 0 of the messages array. -/
def pathZero : Option (List PathSeg) :=
  some [PathSeg.str "messages", PathSeg.num 0]

/-- A data patch setting the name field. -/
def dNamePatch : IncData :=
  { id := none, typename := none, createdAt := none, name := some "nn",
    arguments := none, content := none, extra := [] }

/-- Witness for C3: the patch for unresolved index 0 is dropped on the
empty interpreter state. -/
theorem incremental_data_drop_and_replay_witness :
    handleIncrementalData pathZero dNamePatch emptyProcState =
      (emptyProcState, []) :=
  (incremental_data_drop_and_replay pathZero dNamePatch emptyProcState 0
    (by decide)).1 (by decide)

/-- A wire path addressing element i of string-array field f of the
message at array position k. -/
def patchPath (k : Nat) (f : String) (i : Nat) : Option (List PathSeg) :=
  some [PathSeg.str "generateCopilotResponse", PathSeg.str "messages",
        PathSeg.num k, PathSeg.str f, PathSeg.num i]

/-- The value of one of the two streamed string-array fields. -/
def fieldValue (m : AGUIMessage) (f : String) : Option (List (Option String)) :=
  if f = "arguments" then m.arguments else m.content

theorem patchPath_resolution (k i : Nat) (f : String) :
    getMessageIndexFromPath (patchPath k f i) = some k ∧
    getFieldFromPath [PathSeg.str "generateCopilotResponse",
      PathSeg.str "messages", PathSeg.num k, PathSeg.str f, PathSeg.num i] = some f ∧
    getArrayIndexFromPath [PathSeg.str "generateCopilotResponse",
      PathSeg.str "messages", PathSeg.num k, PathSeg.str f, PathSeg.num i] = some i := by
  refine ⟨?_, ?_, ?_⟩ <;>
    simp [getMessageIndexFromPath, getFieldFromPath, getArrayIndexFromPath,
      patchPath, findMessagesIdx]

theorem applyArrayFieldUpdate_arguments_state (s : ProcState) (k : Nat)
    (mid : String) (current : AGUIMessage) (i : Nat) (v : String)
    (htr : lookupAssoc s.tracker k = some mid) (hne : mid ≠ "")
    (hcur : lookupAssoc s.reg.messageStore mid = some current) :
    (applyArrayFieldUpdate (patchPath k "arguments" i) v s).1 =
      ({ reg := (storeMessage { current with arguments := some (updateArrayField current.arguments i v) } s.reg).1,
         tracker := s.tracker } : ProcState) := by
  obtain ⟨h1, h2, h3⟩ := patchPath_resolution k i "arguments"
  simp only [patchPath] at h1
  simp [applyArrayFieldUpdate, patchPath, h1, h2, h3, htr, hne, hcur]

theorem applyArrayFieldUpdate_content_state (s : ProcState) (k : Nat)
    (mid : String) (current : AGUIMessage) (i : Nat) (v : String)
    (htr : lookupAssoc s.tracker k = some mid) (hne : mid ≠ "")
    (hcur : lookupAssoc s.reg.messageStore mid = some current) :
    (applyArrayFieldUpdate (patchPath k "content" i) v s).1 =
      ({ reg := (storeMessage { current with content := some (updateArrayField current.content i v) } s.reg).1,
         tracker := s.tracker } : ProcState) := by
  obtain ⟨h1, h2, h3⟩ := patchPath_resolution k i "content"
  simp only [patchPath] at h1
  simp [applyArrayFieldUpdate, patchPath, h1, h2, h3, htr, hne, hcur]

/-- Claim C6: for a message already resolvable through the IndexTracker,
three sequential array-field patches writing strings to positions 0, 1, 2
of one of the two string-array fields, starting from the field absent or
empty, leave the field equal to the three strings in order, the same as
supplying the array whole. -/
theorem array_field_growth :
    ∀ (s : ProcState) (k : Nat) (mid : String) (current : AGUIMessage)
      (f : String) (a b c : String),
      (f = "arguments" ∨ f = "content") →
      lookupAssoc s.tracker k = some mid → mid ≠ "" →
      lookupAssoc s.reg.messageStore mid = some current →
      current.id = mid →
      (fieldValue current f = none ∨ fieldValue current f = some []) →
      ∃ mfin : AGUIMessage,
        lookupAssoc
          ((applyArrayFieldUpdate (patchPath k f 2) c
            ((applyArrayFieldUpdate (patchPath k f 1) b
              ((applyArrayFieldUpdate (patchPath k f 0) a s).1)).1)).1).reg.messageStore
          mid = some mfin ∧
        fieldValue mfin f = some [some a, some b, some c] := by
  intro s k mid current f a b c hf htr hne hcur hid hfv
  rcases hf with hf | hf <;> subst hf
  · -- the arguments field
    have hcur0 : current.arguments = none ∨ current.arguments = some [] := by
      simpa [fieldValue] using hfv
    have harr0 : updateArrayField current.arguments 0 a = [some a] := by
      rcases hcur0 with h | h <;> simp [updateArrayField, h]
    have e1 : (applyArrayFieldUpdate (patchPath k "arguments" 0) a s).1 =
        ({ reg := (storeMessage { current with arguments := some [some a] } s.reg).1,
           tracker := s.tracker } : ProcState) := by
      rw [applyArrayFieldUpdate_arguments_state s k mid current 0 a htr hne hcur, harr0]
    have hid1 : ({ current with arguments := some [some a] } : AGUIMessage).id = mid := hid
    have hs1 : lookupAssoc
        (storeMessage { current with arguments := some [some a] } s.reg).1.messageStore mid =
        some { current with arguments := some [some a] } := by
      have hm : (storeMessage { current with arguments := some [some a] } s.reg).1.messageStore =
          setAssoc s.reg.messageStore
            ({ current with arguments := some [some a] } : AGUIMessage).id
            { current with arguments := some [some a] } := rfl
      rw [hm, hid1]
      exact lookupAssoc_setAssoc_self _ _ _
    have e2 : (applyArrayFieldUpdate (patchPath k "arguments" 1) b
        ({ reg := (storeMessage { current with arguments := some [some a] } s.reg).1,
           tracker := s.tracker } : ProcState)).1 =
        ({ reg := (storeMessage { current with arguments := some [some a, some b] }
             (storeMessage { current with arguments := some [some a] } s.reg).1).1,
           tracker := s.tracker } : ProcState) := by
      have h := applyArrayFieldUpdate_arguments_state
        ({ reg := (storeMessage { current with arguments := some [some a] } s.reg).1,
           tracker := s.tracker } : ProcState) k mid
        { current with arguments := some [some a] } 1 b htr hne hs1
      exact h
    have hid2 : ({ current with arguments := some [some a, some b] } : AGUIMessage).id = mid := hid
    have hs2 : lookupAssoc
        (storeMessage { current with arguments := some [some a, some b] }
          (storeMessage { current with arguments := some [some a] } s.reg).1).1.messageStore mid =
        some { current with arguments := some [some a, some b] } := by
      have hm : (storeMessage { current with arguments := some [some a, some b] }
          (storeMessage { current with arguments := some [some a] } s.reg).1).1.messageStore =
          setAssoc (storeMessage { current with arguments := some [some a] } s.reg).1.messageStore
            ({ current with arguments := some [some a, some b] } : AGUIMessage).id
            { current with arguments := some [some a, some b] } := rfl
      rw [hm, hid2]
      exact lookupAssoc_setAssoc_self _ _ _
    have e3 : (applyArrayFieldUpdate (patchPath k "arguments" 2) c
        ({ reg := (storeMessage { current with arguments := some [some a, some b] }
             (storeMessage { current with arguments := some [some a] } s.reg).1).1,
           tracker := s.tracker } : ProcState)).1 =
        ({ reg := (storeMessage { current with arguments := some [some a, some b, some c] }
             (storeMessage { current with arguments := some [some a, some b] }
               (storeMessage { current with arguments := some [some a] } s.reg).1).1).1,
           tracker := s.tracker } : ProcState) := by
      have h := applyArrayFieldUpdate_arguments_state
        ({ reg := (storeMessage { current with arguments := some [some a, some b] }
             (storeMessage { current with arguments := some [some a] } s.reg).1).1,
           tracker := s.tracker } : ProcState) k mid
        { current with arguments := some [some a, some b] } 2 c htr hne hs2
      exact h
    rw [e1, e2, e3]
    have hid3 : ({ current with arguments := some [some a, some b, some c] } : AGUIMessage).id = mid := hid
    refine ⟨{ current with arguments := some [some a, some b, some c] }, ?_, ?_⟩
    · show lookupAssoc
        (storeMessage { current with arguments := some [some a, some b, some c] }
          (storeMessage { current with arguments := some [some a, some b] }
            (storeMessage { current with arguments := some [some a] } s.reg).1).1).1.messageStore
        mid = some { current with arguments := some [some a, some b, some c] }
      have hm : (storeMessage { current with arguments := some [some a, some b, some c] }
          (storeMessage { current with arguments := some [some a, some b] }
            (storeMessage { current with arguments := some [some a] } s.reg).1).1).1.messageStore =
          setAssoc (storeMessage { current with arguments := some [some a, some b] }
            (storeMessage { current with arguments := some [some a] } s.reg).1).1.messageStore
            ({ current with arguments := some [some a, some b, some c] } : AGUIMessage).id
            { current with arguments := some [some a, some b, some c] } := rfl
      rw [hm, hid3]
      exact lookupAssoc_setAssoc_self _ _ _
    · simp [fieldValue]
  · -- the content field
    have hcur0 : current.content = none ∨ current.content = some [] := by
      simpa [fieldValue] using hfv
    have harr0 : updateArrayField current.content 0 a = [some a] := by
      rcases hcur0 with h | h <;> simp [updateArrayField, h]
    have e1 : (applyArrayFieldUpdate (patchPath k "content" 0) a s).1 =
        ({ reg := (storeMessage { current with content := some [some a] } s.reg).1,
           tracker := s.tracker } : ProcState) := by
      rw [applyArrayFieldUpdate_content_state s k mid current 0 a htr hne hcur, harr0]
    have hid1 : ({ current with content := some [some a] } : AGUIMessage).id = mid := hid
    have hs1 : lookupAssoc
        (storeMessage { current with content := some [some a] } s.reg).1.messageStore mid =
        some { current with content := some [some a] } := by
      have hm : (storeMessage { current with content := some [some a] } s.reg).1.messageStore =
          setAssoc s.reg.messageStore
            ({ current with content := some [some a] } : AGUIMessage).id
            { current with content := some [some a] } := rfl
      rw [hm, hid1]
      exact lookupAssoc_setAssoc_self _ _ _
    have e2 : (applyArrayFieldUpdate (patchPath k "content" 1) b
        ({ reg := (storeMessage { current with content := some [some a] } s.reg).1,
           tracker := s.tracker } : ProcState)).1 =
        ({ reg := (storeMessage { current with content := some [some a, some b] }
             (storeMessage { current with content := some [some a] } s.reg).1).1,
           tracker := s.tracker } : ProcState) := by
      have h := applyArrayFieldUpdate_content_state
        ({ reg := (storeMessage { current with content := some [some a] } s.reg).1,
           tracker := s.tracker } : ProcState) k mid
        { current with content := some [some a] } 1 b htr hne hs1
      exact h
    have hid2 : ({ current with content := some [some a, some b] } : AGUIMessage).id = mid := hid
    have hs2 : lookupAssoc
        (storeMessage { current with content := some [some a, some b] }
          (storeMessage { current with content := some [some a] } s.reg).1).1.messageStore mid =
        some { current with content := some [some a, some b] } := by
      have hm : (storeMessage { current with content := some [some a, some b] }
          (storeMessage { current with content := some [some a] } s.reg).1).1.messageStore =
          setAssoc (storeMessage { current with content := some [some a] } s.reg).1.messageStore
            ({ current with content := some [some a, some b] } : AGUIMessage).id
            { current with content := some [some a, some b] } := rfl
      rw [hm, hid2]
      exact lookupAssoc_setAssoc_self _ _ _
    have e3 : (applyArrayFieldUpdate (patchPath k "content" 2) c
        ({ reg := (storeMessage { current with content := some [some a, some b] }
             (storeMessage { current with content := some [some a] } s.reg).1).1,
           tracker := s.tracker } : ProcState)).1 =
        ({ reg := (storeMessage { current with content := some [some a, some b, some c] }
             (storeMessage { current with content := some [some a, some b] }
               (storeMessage { current with content := some [some a] } s.reg).1).1).1,
           tracker := s.tracker } : ProcState) := by
      have h := applyArrayFieldUpdate_content_state
        ({ reg := (storeMessage { current with content := some [some a, some b] }
             (storeMessage { current with content := some [some a] } s.reg).1).1,
           tracker := s.tracker } : ProcState) k mid
        { current with content := some [some a, some b] } 2 c htr hne hs2
      exact h
    rw [e1, e2, e3]
    have hid3 : ({ current with content := some [some a, some b, some c] } : AGUIMessage).id = mid := hid
    refine ⟨{ current with content := some [some a, some b, some c] }, ?_, ?_⟩
    · show lookupAssoc
        (storeMessage { current with content := some [some a, some b, some c] }
          (storeMessage { current with content := some [some a, some b] }
            (storeMessage { current with content := some [some a] } s.reg).1).1).1.messageStore
        mid = some { current with content := some [some a, some b, some c] }
      have hm : (storeMessage { current with content := some [some a, some b, some c] }
          (storeMessage { current with content := some [some a, some b] }
            (storeMessage { current with content := some [some a] } s.reg).1).1).1.messageStore =
          setAssoc (storeMessage { current with content := some [some a, some b] }
            (storeMessage { current with content := some [some a] } s.reg).1).1.messageStore
            ({ current with content := some [some a, some b, some c] } : AGUIMessage).id
            { current with content := some [some a, some b, some c] } := rfl
      rw [hm, hid3]
      exact lookupAssoc_setAssoc_self _ _ _
    · simp [fieldValue]

/-- Interpreter state holding one tracked empty-content message. -/
def sGrow : ProcState :=
  { reg := { messageStore := [("m1", mSnapOne)], messagesByType := [],
             actionExecutionMessages := [], subscribers := [] },
    tracker := [(0, "m1")] }

/-- Witness for C6: three concrete content patches on a tracked message. -/
theorem array_field_growth_witness :
    ∃ mfin : AGUIMessage,
      lookupAssoc
        ((applyArrayFieldUpdate (patchPath 0 "content" 2) "gamma"
          ((applyArrayFieldUpdate (patchPath 0 "content" 1) "beta"
            ((applyArrayFieldUpdate (patchPath 0 "content" 0) "alpha" sGrow).1)).1)).1).reg.messageStore
        "m1" = some mfin ∧
      fieldValue mfin "content" = some [some "alpha", some "beta", some "gamma"] :=
  array_field_growth sGrow 0 "m1" mSnapOne "content" "alpha" "beta" "gamma"
    (Or.inr rfl) (by decide) (by decide) (by decide) (by decide)
    (by decide)

/-- Well-formedness of the message store: every record is keyed by its
own id. Every store reachable through storeMessage satisfies this. -/
def StoreWF (reg : RegistryState) : Prop :=
  ∀ (k : String) (v : AGUIMessage),
    lookupAssoc reg.messageStore k = some v → v.id = k

theorem lookupAssoc_setAssoc_cases {α β : Type} [DecidableEq α]
    (l : List (α × β)) (k k' : α) (v v' : β)
    (h : lookupAssoc (setAssoc l k v) k' = some v') :
    (k' = k ∧ v' = v) ∨ (k' ≠ k ∧ lookupAssoc l k' = some v') := by
  by_cases he : k' = k
  · subst he
    rw [lookupAssoc_setAssoc_self] at h
    exact Or.inl ⟨rfl, (Option.some.inj h).symm⟩
  · rw [lookupAssoc_setAssoc_ne _ _ _ _ he] at h
    exact Or.inr ⟨he, h⟩

theorem preserved_after_store {reg : RegistryState} {mid : String}
    {current u : AGUIMessage}
    (hwf : StoreWF reg) (hcur : lookupAssoc reg.messageStore mid = some current)
    (hid : u.id = current.id) (hty : u.typename = current.typename)
    (k : String) (v : AGUIMessage)
    (hkv : lookupAssoc reg.messageStore k = some v) :
    ∃ v' : AGUIMessage, lookupAssoc (storeMessage u reg).1.messageStore k = some v' ∧
      v'.id = v.id ∧ v'.typename = v.typename := by
  have hmid : current.id = mid := hwf mid current hcur
  have hstore : (storeMessage u reg).1.messageStore =
      setAssoc reg.messageStore u.id u := rfl
  rw [hstore]
  by_cases hk : k = u.id
  · have hkm : k = mid := by rw [hk, hid, hmid]
    have hv : v = current := by
      rw [hkm] at hkv
      exact Option.some.inj (hkv.symm.trans hcur)
    subst hk
    refine ⟨u, lookupAssoc_setAssoc_self _ _ _, ?_, ?_⟩
    · rw [hid, hv]
    · rw [hty, hv]
  · refine ⟨v, ?_, rfl, rfl⟩
    rw [lookupAssoc_setAssoc_ne _ _ _ _ hk]
    exact hkv

/-- Claim C7 (amended): the id recorded under a store key never changes
(it always equals the key, and storeMessage preserves this); an
incremental data merge and an array-field patch preserve both the id and
the kind of every stored record (the merge forces them back to the
current record's values). A snapshot wholesale replacement preserves the
id but may overwrite the kind with the new payload's value. -/
theorem id_kind_preservation :
    (∀ (current : AGUIMessage) (d : IncData),
        (mergeData current d).id = current.id ∧
        (mergeData current d).typename = current.typename)
    ∧ (∀ (m : AGUIMessage) (reg : RegistryState),
        StoreWF reg → StoreWF (storeMessage m reg).1)
    ∧ (∀ (path : Option (List PathSeg)) (d : IncData) (s : ProcState)
        (k : String) (v : AGUIMessage),
        StoreWF s.reg → lookupAssoc s.reg.messageStore k = some v →
        ∃ v' : AGUIMessage,
          lookupAssoc (handleIncrementalData path d s).1.reg.messageStore k = some v' ∧
          v'.id = v.id ∧ v'.typename = v.typename)
    ∧ (∀ (path : Option (List PathSeg)) (it : String) (s : ProcState)
        (k : String) (v : AGUIMessage),
        StoreWF s.reg → lookupAssoc s.reg.messageStore k = some v →
        ∃ v' : AGUIMessage,
          lookupAssoc (applyArrayFieldUpdate path it s).1.reg.messageStore k = some v' ∧
          v'.id = v.id ∧ v'.typename = v.typename) := by
  refine ⟨?_, ?_, ?_, ?_⟩
  · intro current d
    exact ⟨rfl, rfl⟩
  · intro m reg hwf k v hkv
    have hstore : (storeMessage m reg).1.messageStore =
        setAssoc reg.messageStore m.id m := rfl
    rw [hstore] at hkv
    rcases lookupAssoc_setAssoc_cases _ _ _ _ _ hkv with ⟨hke, hve⟩ | ⟨_, hold⟩
    · rw [hve, hke]
    · exact hwf k v hold
  · intro path d s k v hwf hkv
    cases hpi : getMessageIndexFromPath path with
    | none =>
      simp only [handleIncrementalData, hpi]
      exact ⟨v, hkv, rfl, rfl⟩
    | some idx =>
      cases htr : lookupAssoc s.tracker idx with
      | none =>
        simp only [handleIncrementalData, hpi, htr]
        exact ⟨v, hkv, rfl, rfl⟩
      | some mid =>
        by_cases hmide : mid = ""
        · simp only [handleIncrementalData, hpi, htr, if_pos hmide]
          exact ⟨v, hkv, rfl, rfl⟩
        · cases hcur : lookupAssoc s.reg.messageStore mid with
          | none =>
            simp only [handleIncrementalData, hpi, htr, if_neg hmide, hcur]
            exact ⟨v, hkv, rfl, rfl⟩
          | some current =>
            simp only [handleIncrementalData, hpi, htr, if_neg hmide, hcur]
            exact preserved_after_store (u := mergeData current d)
              hwf hcur rfl rfl k v hkv
  · intro path it s k v hwf hkv
    cases path with
    | none =>
      simp only [applyArrayFieldUpdate]
      exact ⟨v, hkv, rfl, rfl⟩
    | some p =>
      cases hpi : getMessageIndexFromPath (some p) with
      | none =>
        simp only [applyArrayFieldUpdate, hpi]
        exact ⟨v, hkv, rfl, rfl⟩
      | some idx =>
        cases hfp : getFieldFromPath p with
        | none =>
          simp only [applyArrayFieldUpdate, hpi, hfp]
          exact ⟨v, hkv, rfl, rfl⟩
        | some field =>
          cases hap : getArrayIndexFromPath p with
          | none =>
            simp only [applyArrayFieldUpdate, hpi, hfp, hap]
            exact ⟨v, hkv, rfl, rfl⟩
          | some ai =>
            by_cases hfw : field = "arguments" ∨ field = "content"
            · cases htr : lookupAssoc s.tracker idx with
              | none =>
                simp only [applyArrayFieldUpdate, hpi, hfp, hap, if_pos hfw, htr]
                exact ⟨v, hkv, rfl, rfl⟩
              | some mid =>
                by_cases hmide : mid = ""
                · simp only [applyArrayFieldUpdate, hpi, hfp, hap, if_pos hfw,
                    htr, if_pos hmide]
                  exact ⟨v, hkv, rfl, rfl⟩
                · cases hcur : lookupAssoc s.reg.messageStore mid with
                  | none =>
                    simp only [applyArrayFieldUpdate, hpi, hfp, hap, if_pos hfw,
                      htr, if_neg hmide, hcur]
                    exact ⟨v, hkv, rfl, rfl⟩
                  | some current =>
                    simp only [applyArrayFieldUpdate, hpi, hfp, hap, if_pos hfw,
                      htr, if_neg hmide, hcur]
                    by_cases hfa : field = "arguments"
                    · simp only [if_pos hfa]
                      exact preserved_after_store
                        (u := { current with arguments := some (updateArrayField current.arguments ai it) })
                        hwf hcur rfl rfl k v hkv
                    · simp only [if_neg hfa]
                      exact preserved_after_store
                        (u := { current with content := some (updateArrayField current.content ai it) })
                        hwf hcur rfl rfl k v hkv
            · simp only [applyArrayFieldUpdate, hpi, hfp, hap, if_neg hfw]
              exact ⟨v, hkv, rfl, rfl⟩

/-- The data part of a snapshot carrying the T1-typed message. -/
def dpTypeOne : DataPayload :=
  { generateCopilotResponse := some { messages := some [Item.msg mTypeOne] } }

/-- The data part of a snapshot carrying the T2-typed replacement. -/
def dpTypeTwo : DataPayload :=
  { generateCopilotResponse := some { messages := some [Item.msg mTypeTwo] } }

/-- Counterexample to claim C7 as stated: a snapshot wholesale
replacement changes the kind discriminant recorded under an id. After a
snapshot stores id x with kind T1, a second snapshot with the same id
and kind T2 leaves kind T2 recorded under x. -/
theorem kind_change_counterexample :
    (lookupAssoc (processDataPayload dpTypeOne emptyRegistry).1.messageStore "x").map
        AGUIMessage.typename = some "T1" ∧
    (lookupAssoc (processDataPayload dpTypeTwo
        (processDataPayload dpTypeOne emptyRegistry).1).1.messageStore "x").map
        AGUIMessage.typename = some "T2" := by
  decide

/-- A registry holding the single T1-typed record under its id. -/
def regSingle : RegistryState :=
  { messageStore := [("x", mTypeOne)], messagesByType := [("T1", ["x"])],
    actionExecutionMessages := [], subscribers := [] }

/-- Interpreter state tracking the single record at position 0. -/
def sSingle : ProcState :=
  { reg := regSingle, tracker := [(0, "x")] }

/-- A data patch that tries to overwrite id and kind. -/
def dRetype : IncData :=
  { id := some "y", typename := some "Z", createdAt := none, name := none,
    arguments := none, content := none, extra := [] }

/-- Witness for the amended C7: an incremental data merge that tries to
overwrite id and kind leaves both unchanged on the stored record. -/
theorem id_kind_preservation_witness :
    ∃ v' : AGUIMessage,
      lookupAssoc (handleIncrementalData pathZero dRetype sSingle).1.reg.messageStore "x" =
        some v' ∧
      v'.id = mTypeOne.id ∧ v'.typename = mTypeOne.typename := by
  have hwf : StoreWF regSingle := by
    intro k v h
    simp only [regSingle, lookupAssoc] at h
    split at h
    · rename_i heq
      injection h with hv
      rw [← hv]
      exact heq
    · exact absurd h (by simp)
  exact id_kind_preservation.2.2.1 pathZero dRetype sSingle "x" mTypeOne hwf rfl

end Agui
